import Mathlib

/-!
Shallow embedding of the Bluetooth Heart Rate Dashboard core (`src/main.py`).

The embedding models, faithfully to the Python source:
  * the heart-rate payload decoder inlined in `heart_rate_notification_handler`
    (lines 208–216);
  * `save_heart_rate` (lines 32–40), which swallows storage failures;
  * the notification handler's update order: cache, log, persist, broadcast
    (lines 208–228);
  * the module-level session state `current_client` together with
    `connect_ble` (lines 247–261) and `disconnect_ble` (lines 263–268);
  * `ConnectionManager.broadcast` (lines 121–126);
  * the `/api/history` query `get_history` (lines 159–206), with SQLite
    semantics for `GROUP BY`/`ORDER BY ... DESC`/`LIMIT ?` made explicit
    (a negative bound to `LIMIT` means "no limit" in SQLite).

Timestamps are modelled as natural numbers (seconds since the epoch, UTC);
truncating a SQLite datetime string to minute/hour/day granularity with
`strftime` corresponds to integer division of the epoch second count.
Machine bytes are `Fin 256`.  Exceptions are modelled with `Except`.
-/

/-- A raw payload byte, as delivered by the BLE adapter. -/
abbrev Byte := Fin 256

/-- The heart-rate decoder, extracted from lines 210–216 of
`heart_rate_notification_handler`:

    flag = data[0]
    hr_format = flag & 0x01
    if hr_format == 0:  hr_val = data[1]
    else:               hr_val = struct.unpack_from("<H", data, 1)[0]

Reading `data[0]` or `data[1]` out of range raises `IndexError`, and
`struct.unpack_from("<H", data, 1)` raises `struct.error` when the payload
has fewer than 3 bytes; all decode-path failures are modelled as `none`. -/
def decodeHR : List Byte → Option Nat
  | [] => none
  | flag :: rest =>
    if flag.val % 2 = 0 then
      match rest with
      | [] => none
      | b :: _ => some b.val
    else
      match rest with
      | b0 :: b1 :: _ => some (b0.val + 256 * b1.val)
      | _ => none

/-- Outbound viewer events, the JSON objects passed to `manager.broadcast`. -/
inductive OutEvent : Type
  | status (message : String)
  | error (message : String)
  | heart_rate (value : Nat)
deriving DecidableEq, Repr

/-- The observable actions taken by the BLE-side code, recorded in program
order: BLE client teardown/connect, a broadcast call, a log line, the
current-value cache update, and a database insert attempt. -/
inductive Act : Type
  | clientDisconnect (address : String)
  | clientConnect (address : String)
  | send (event : OutEvent)
  | logError (message : String)
  | logHeartRate (value : Nat)
  | cacheUpdate (value : Nat)
  | dbAttempt (value : Nat) (address : String) (ok : Bool)
deriving DecidableEq, Repr

/-- The relevant fields of a `BleakClient`: its `address` and its
`is_connected` flag. -/
structure Client : Type where
  address : String
  is_connected : Bool
deriving DecidableEq, Repr

/-- A row of the `measurements` table: `timestamp` (epoch seconds, UTC,
assigned at insert time by `DEFAULT CURRENT_TIMESTAMP`), `value`, and
`device_address`. -/
structure Measurement : Type where
  timestamp : Nat
  value : Nat
  device_address : String
deriving DecidableEq, Repr

/-- The module-level mutable state of `main.py`: the single global
`current_client` reference, the `current_hr` cache, the persisted
`measurements` table, and the trace of observable actions performed so far. -/
structure AppState : Type where
  current_client : Option Client
  current_hr : Nat
  db : List Measurement
  trace : List Act
deriving DecidableEq, Repr

/-- `save_heart_rate(value, device_address)` (lines 32–40): inserts a row,
and catches any database exception, logging it instead of propagating
(`storageOk` says whether the underlying medium accepted the write; `now` is
the timestamp SQLite assigns). -/
def save_heart_rate (value : Nat) (device_address : String) (now : Nat)
    (storageOk : Bool) (s : AppState) : AppState :=
  if storageOk then
    { s with db := s.db ++ [⟨now, value, device_address⟩],
             trace := s.trace ++ [Act.dbAttempt value device_address true] }
  else
    { s with trace := s.trace ++ [Act.dbAttempt value device_address false,
                                  Act.logError "Database error"] }

/-- `heart_rate_notification_handler(sender, data)` (lines 208–228): decode,
update the `current_hr` cache, log, persist via `save_heart_rate` when a
client reference exists, then broadcast the `heart_rate` event.  A payload
too short for its format raises out of the handler (modelled as
`Except.error`), leaving the state untouched. -/
def heart_rate_notification_handler (data : List Byte) (now : Nat)
    (storageOk : Bool) (s : AppState) : Except String AppState :=
  match decodeHR data with
  | none => Except.error "DecodeError"
  | some hr =>
    let s1 : AppState :=
      { s with current_hr := hr,
               trace := s.trace ++ [Act.cacheUpdate hr, Act.logHeartRate hr] }
    let s2 : AppState :=
      match s1.current_client with
      | some c => save_heart_rate hr c.address now storageOk s1
      | none => s1
    Except.ok { s2 with trace := s2.trace ++ [Act.send (OutEvent.heart_rate hr)] }

/-- One notification delivery as the event loop sees it: the handler runs,
and if it raises, the exception stops at the scheduler, which logs it; no
state beyond the log changes and the BLE session is not torn down. -/
def notifyStep (data : List Byte) (now : Nat) (storageOk : Bool)
    (s : AppState) : AppState :=
  match heart_rate_notification_handler data now storageOk s with
  | Except.ok s' => s'
  | Except.error e => { s with trace := s.trace ++ [Act.logError e] }

/-- `connect_ble(address)` (lines 247–261): if the current client exists and
is connected, disconnect it first; broadcast "Connecting"; replace
`current_client` with a fresh client and attempt the connection
(`connectOk` says whether the adapter connect/subscribe succeeds); on
success broadcast "Connected", on failure log, broadcast an `error` event
and clear `current_client`. -/
def connect_ble (address : String) (connectOk : Bool) (s : AppState) : AppState :=
  let s1 : AppState :=
    match s.current_client with
    | some c =>
      if c.is_connected then
        { s with current_client := some { c with is_connected := false },
                 trace := s.trace ++ [Act.clientDisconnect c.address] }
      else s
    | none => s
  let s2 : AppState :=
    { s1 with trace := s1.trace ++
        [Act.send (OutEvent.status ("Connecting to " ++ address ++ "..."))] }
  let s3 : AppState :=
    { s2 with current_client := some { address := address, is_connected := false } }
  if connectOk then
    { s3 with current_client := some { address := address, is_connected := true },
              trace := s3.trace ++
                [Act.clientConnect address,
                 Act.send (OutEvent.status ("Connected to " ++ address))] }
  else
    { s3 with current_client := none,
              trace := s3.trace ++
                [Act.logError "Connection error",
                 Act.send (OutEvent.error "Connection error")] }

/-- `disconnect_ble()` (lines 263–268): if the current client exists and is
connected, disconnect it and broadcast "Disconnected"; in every case clear
the `current_client` reference. -/
def disconnect_ble (s : AppState) : AppState :=
  match s.current_client with
  | some c =>
    if c.is_connected then
      { s with current_client := none,
               trace := s.trace ++ [Act.clientDisconnect c.address,
                                    Act.send (OutEvent.status "Disconnected")] }
    else { s with current_client := none }
  | none => { s with current_client := none }


/-- A connected viewer WebSocket; `failsOnSend` says whether `send_json` to
it raises (e.g. the socket is dead). -/
structure Viewer : Type where
  id : Nat
  failsOnSend : Bool
deriving DecidableEq, Repr

/-- `connection.send_json(message)`: succeeds or raises, depending on the
transport's health. -/
def send_json (v : Viewer) (_message : OutEvent) : Except String Unit :=
  if v.failsOnSend then Except.error "send failed" else Except.ok ()

/-- The outcome of one broadcast pass: the ids that received the message, in
delivery order, and the error-log lines produced. -/
structure BroadcastOutcome : Type where
  delivered : List Nat
  errorsLogged : List String
deriving DecidableEq, Repr

/-- The loop body of `ConnectionManager.broadcast` (lines 121–126): for each
connection in order, `send_json` inside `try`, logging any exception and
continuing with the next connection. -/
def broadcastLoop (message : OutEvent) : List Viewer → BroadcastOutcome
  | [] => ⟨[], []⟩
  | v :: rest =>
    let r := broadcastLoop message rest
    match send_json v message with
    | Except.ok _ => ⟨v.id :: r.delivered, r.errorsLogged⟩
    | Except.error e => ⟨r.delivered, ("Error broadcasting message: " ++ e) :: r.errorsLogged⟩

/-- `ConnectionManager`: holds `active_connections`. -/
structure Manager : Type where
  active_connections : List Viewer
deriving DecidableEq, Repr

/-- `ConnectionManager.broadcast(message)`: iterates over the connection
list sending to each; it never raises and never mutates the list (viewer
removal happens only in `ConnectionManager.disconnect`, driven by the
transport's own disconnect signal). -/
def ConnectionManager.broadcast (mgr : Manager) (message : OutEvent) :
    Manager × BroadcastOutcome :=
  (mgr, broadcastLoop message mgr.active_connections)

/-- Insert into a list kept in descending `key` order. -/
def insertDescBy (key : α → Nat) (x : α) : List α → List α
  | [] => [x]
  | y :: ys => if key y ≤ key x then x :: y :: ys else y :: insertDescBy key x ys

/-- Sort a list into descending `key` order (`ORDER BY key DESC`). -/
def sortDescBy (key : α → Nat) : List α → List α
  | [] => []
  | x :: xs => insertDescBy key x (sortDescBy key xs)

/-- SQLite `LIMIT ?`: a non-negative bound keeps that many leading rows; a
negative bound means "no limit" and keeps everything. -/
def sqlLimit (limit : Int) (xs : List α) : List α :=
  if limit < 0 then xs else xs.take limit.toNat

/-- `strftime('%Y-%m-%d %H:%M', timestamp)` on epoch seconds: truncate to
the minute. -/
def truncMinute (t : Nat) : Nat := t / 60 * 60

/-- `strftime('%Y-%m-%d %H:00', timestamp)` on epoch seconds: truncate to
the hour. -/
def truncHour (t : Nat) : Nat := t / 3600 * 3600

/-- `strftime('%Y-%m-%d', timestamp)` on epoch seconds: truncate to the
day. -/
def truncDay (t : Nat) : Nat := t / 86400 * 86400

/-- Python's `round` on the exact rational `s / n`: round to the nearest
integer, ties to even. -/
def roundHalfEven (s n : Nat) : Nat :=
  let q := s / n
  let r := s % n
  if 2 * r < n then q
  else if n < 2 * r then q + 1
  else if q % 2 = 0 then q else q + 1

/-- The values of the rows falling into time bucket `b` under truncation
`trunc`. -/
def bucketValues (trunc : Nat → Nat) (b : Nat) (db : List Measurement) : List Nat :=
  (db.filter (fun m => trunc m.timestamp = b)).map Measurement.value

/-- One aggregate branch of `get_history`:
`SELECT time_bucket, AVG(value) ... GROUP BY time_bucket ORDER BY
time_bucket DESC LIMIT ?`, then `reversed` and `round` in the Python list
comprehension (line 206).  Result pairs are (bucket, rounded mean). -/
def aggRows (trunc : Nat → Nat) (limit : Int) (db : List Measurement) :
    List (Nat × Nat) :=
  ((sqlLimit limit (sortDescBy id ((db.map (fun m => trunc m.timestamp)).dedup))).reverse).map
    (fun b =>
      (b, roundHalfEven (bucketValues trunc b db).sum (bucketValues trunc b db).length))

/-- The raw branch of `get_history`: `SELECT timestamp, value ... ORDER BY
timestamp DESC LIMIT ?`, then `reversed` and `round` (rounding an integer
value is the identity). -/
def rawRows (limit : Int) (db : List Measurement) : List (Nat × Nat) :=
  ((sqlLimit limit (sortDescBy Measurement.timestamp db)).reverse).map
    (fun m => (m.timestamp, m.value))

/-- `get_history(period, limit)` (lines 159–206): dispatch on the period
string; any string other than "minute"/"hour"/"day" falls into the raw
branch. -/
def get_history (period : String) (limit : Int) (db : List Measurement) :
    List (Nat × Nat) :=
  if period = "minute" then aggRows truncMinute limit db
  else if period = "hour" then aggRows truncHour limit db
  else if period = "day" then aggRows truncDay limit db
  else rawRows limit db


theorem mem_insertDescBy {key : α → Nat} {x a : α} {l : List α} :
    a ∈ insertDescBy key x l ↔ a = x ∨ a ∈ l := by
  induction l with
  | nil => simp [insertDescBy]
  | cons y ys ih =>
    unfold insertDescBy
    by_cases h : key y ≤ key x
    · simp [h]
    · simp only [if_neg h, List.mem_cons, ih]
      tauto

theorem perm_insertDescBy (key : α → Nat) (x : α) (l : List α) :
    (insertDescBy key x l).Perm (x :: l) := by
  induction l with
  | nil => simp [insertDescBy]
  | cons y ys ih =>
    unfold insertDescBy
    by_cases h : key y ≤ key x
    · simp [h]
    · rw [if_neg h]
      exact (ih.cons y).trans (List.Perm.swap x y ys)

theorem perm_sortDescBy (key : α → Nat) (l : List α) :
    (sortDescBy key l).Perm l := by
  induction l with
  | nil => simp [sortDescBy]
  | cons x xs ih =>
    exact (perm_insertDescBy key x (sortDescBy key xs)).trans (ih.cons x)

theorem sorted_insertDescBy {key : α → Nat} {x : α} {l : List α}
    (h : l.Pairwise (fun a b => key b ≤ key a)) :
    (insertDescBy key x l).Pairwise (fun a b => key b ≤ key a) := by
  induction l with
  | nil => simp [insertDescBy]
  | cons y ys ih =>
    rw [List.pairwise_cons] at h
    obtain ⟨hy, hys⟩ := h
    unfold insertDescBy
    by_cases hxy : key y ≤ key x
    · rw [if_pos hxy, List.pairwise_cons]
      refine ⟨?_, List.pairwise_cons.mpr ⟨hy, hys⟩⟩
      intro b hb
      rcases List.mem_cons.mp hb with rfl | hb
      · exact hxy
      · exact le_trans (hy b hb) hxy
    · rw [if_neg hxy, List.pairwise_cons]
      refine ⟨?_, ih hys⟩
      intro b hb
      rcases mem_insertDescBy.mp hb with rfl | hb
      · omega
      · exact hy b hb

theorem sorted_sortDescBy (key : α → Nat) (l : List α) :
    (sortDescBy key l).Pairwise (fun a b => key b ≤ key a) := by
  induction l with
  | nil => simp [sortDescBy]
  | cons x xs ih => exact sorted_insertDescBy ih

theorem length_sortDescBy (key : α → Nat) (l : List α) :
    (sortDescBy key l).length = l.length :=
  (perm_sortDescBy key l).length_eq

theorem mem_sortDescBy {key : α → Nat} {a : α} {l : List α} :
    a ∈ sortDescBy key l ↔ a ∈ l :=
  (perm_sortDescBy key l).mem_iff

theorem sqlLimit_eq_take (limit : Int) (xs : List α) :
    sqlLimit limit xs = xs.take (if limit < 0 then xs.length else limit.toNat) := by
  unfold sqlLimit
  split <;> simp

/-- A concrete app state with a connected client, used by witnesses. -/
def sampleState : AppState :=
  { current_client := some { address := "AA:BB", is_connected := true },
    current_hr := 0, db := [], trace := [] }

/-- C2: a payload whose flag bit 0 is 0 and which has at least 2 bytes
decodes to byte 1 as an unsigned integer in 0–255; a payload whose flag
bit 0 is 1 and which has at least 3 bytes decodes to the unsigned 16-bit
little-endian value formed from bytes 1 and 2. -/
theorem decode_formats (f b0 b1 : Byte) (rest : List Byte) :
    (f.val % 2 = 0 →
      decodeHR (f :: b0 :: rest) = some b0.val ∧ b0.val ≤ 255) ∧
    (f.val % 2 = 1 →
      decodeHR (f :: b0 :: b1 :: rest) = some (b0.val + 256 * b1.val)) := by
  constructor
  · intro h
    constructor
    · simp [decodeHR, h]
    · have := b0.isLt
      omega
  · intro h
    have h0 : ¬ f.val % 2 = 0 := by omega
    simp [decodeHR, h0]

theorem decode_formats_witness :
    (decodeHR [(0 : Byte), (72 : Byte)] = some ((72 : Byte).val) ∧
      (72 : Byte).val ≤ 255) ∧
    decodeHR [(1 : Byte), (44 : Byte), (1 : Byte)] =
      some ((44 : Byte).val + 256 * (1 : Byte).val) :=
  ⟨(decode_formats 0 72 0 []).1 (by decide),
   (decode_formats 1 44 1 []).2 (by decide)⟩

/-- C3: a payload too short for the width selected by its flag bit 0
(fewer than 2 bytes in the 8-bit format, fewer than 3 bytes in the 16-bit
format) fails to decode; the notification handler raises instead of
persisting or broadcasting, the scheduler logs the failure, and the state —
in particular the connected client — is untouched, so the session stays
connected. -/
theorem short_payload_dropped (data : List Byte) (now : Nat) (storageOk : Bool)
    (s : AppState)
    (h8 : (data.headD 0).val % 2 = 0 → data.length < 2)
    (h16 : (data.headD 0).val % 2 = 1 → data.length < 3) :
    decodeHR data = none ∧
    heart_rate_notification_handler data now storageOk s =
      Except.error "DecodeError" ∧
    notifyStep data now storageOk s =
      { s with trace := s.trace ++ [Act.logError "DecodeError"] } ∧
    (notifyStep data now storageOk s).current_client = s.current_client := by
  have hnone : decodeHR data = none := by
    match data with
    | [] => rfl
    | [f] =>
      rcases Nat.mod_two_eq_zero_or_one f.val with h | h
      · simp [decodeHR, h]
      · have h0 : ¬ f.val % 2 = 0 := by omega
        simp [decodeHR, h0]
    | f :: b :: rest =>
      rcases Nat.mod_two_eq_zero_or_one f.val with h | h
      · exfalso
        have := h8 (by simpa using h)
        simp at this
        omega
      · have hl := h16 (by simpa using h)
        have hr : rest = [] := by
          cases rest with
          | nil => rfl
          | cons c cs =>
            exfalso
            simp at hl
            omega
        subst hr
        have h0 : ¬ f.val % 2 = 0 := by omega
        simp [decodeHR, h0]
  refine ⟨hnone, ?_, ?_, ?_⟩
  · simp [heart_rate_notification_handler, hnone]
  · simp [notifyStep, heart_rate_notification_handler, hnone]
  · simp [notifyStep, heart_rate_notification_handler, hnone]

theorem short_payload_dropped_witness :
    decodeHR [(1 : Byte), (44 : Byte)] = none ∧
    heart_rate_notification_handler [(1 : Byte), (44 : Byte)] 7 true sampleState =
      Except.error "DecodeError" ∧
    notifyStep [(1 : Byte), (44 : Byte)] 7 true sampleState =
      { sampleState with
          trace := sampleState.trace ++ [Act.logError "DecodeError"] } ∧
    (notifyStep [(1 : Byte), (44 : Byte)] 7 true sampleState).current_client =
      sampleState.current_client :=
  short_payload_dropped [(1 : Byte), (44 : Byte)] 7 true sampleState
    (by decide) (by decide)

theorem broadcastLoop_spec (message : OutEvent) (vs : List Viewer) :
    (broadcastLoop message vs).delivered =
      (vs.filter (fun v => !v.failsOnSend)).map Viewer.id ∧
    (broadcastLoop message vs).delivered.length +
      (broadcastLoop message vs).errorsLogged.length = vs.length := by
  induction vs with
  | nil => simp [broadcastLoop]
  | cons v rest ih =>
    obtain ⟨ih1, ih2⟩ := ih
    by_cases hv : v.failsOnSend
    · simp only [broadcastLoop, send_json, hv, if_pos]
      constructor
      · simpa [hv] using ih1
      · simp only [List.length_cons]
        omega
    · simp only [broadcastLoop, send_json, hv, if_neg, Bool.false_eq_true,
        not_false_eq_true]
      constructor
      · simpa [hv] using ih1
      · simp only [List.length_cons]
        omega

/-- C6: `ConnectionManager.broadcast` attempts a send to every registered
viewer in order — each viewer either receives the message or has its
failure caught and logged (the counts add up to the whole set) — a failing
viewer never prevents delivery to the others (the delivered ids are exactly
the non-failing viewers, whatever the rest do), the connection list is not
mutated during the pass, and no exception escapes (the function returns an
outcome for every input). -/
theorem broadcast_resilient (mgr : Manager) (message : OutEvent) :
    (ConnectionManager.broadcast mgr message).1 = mgr ∧
    (ConnectionManager.broadcast mgr message).2.delivered =
      (mgr.active_connections.filter (fun v => !v.failsOnSend)).map Viewer.id ∧
    (ConnectionManager.broadcast mgr message).2.delivered.length +
      (ConnectionManager.broadcast mgr message).2.errorsLogged.length =
      mgr.active_connections.length :=
  ⟨rfl, (broadcastLoop_spec message mgr.active_connections).1,
    (broadcastLoop_spec message mgr.active_connections).2⟩

theorem disconnect_already_clear (s : AppState) (h : s.current_client = none) :
    disconnect_ble s = s := by
  cases s with
  | mk cc hr db tr =>
    simp only at h
    subst h
    simp [disconnect_ble]

/-- C8: with a connected session, `disconnect_ble` tears the client down,
emits exactly one "Disconnected" status event and clears the reference; a
second call in a row is a no-op (the state is unchanged and no further
event is emitted), so two calls emit exactly one "Disconnected" event in
total. -/
theorem disconnect_idempotent (s : AppState) (c : Client)
    (hc : s.current_client = some c) (hconn : c.is_connected = true) :
    disconnect_ble s =
      { s with current_client := none,
               trace := s.trace ++ [Act.clientDisconnect c.address,
                                    Act.send (OutEvent.status "Disconnected")] } ∧
    disconnect_ble (disconnect_ble s) = disconnect_ble s ∧
    (disconnect_ble (disconnect_ble s)).current_client = none ∧
    (disconnect_ble (disconnect_ble s)).trace.count
        (Act.send (OutEvent.status "Disconnected")) =
      s.trace.count (Act.send (OutEvent.status "Disconnected")) + 1 := by
  have h1 : disconnect_ble s =
      { s with current_client := none,
               trace := s.trace ++ [Act.clientDisconnect c.address,
                                    Act.send (OutEvent.status "Disconnected")] } := by
    simp [disconnect_ble, hc, hconn]
  have h2 : disconnect_ble (disconnect_ble s) = disconnect_ble s := by
    rw [h1]
    exact disconnect_already_clear _ rfl
  refine ⟨h1, h2, ?_, ?_⟩
  · rw [h2, h1]
  · rw [h2, h1]
    simp [List.count_append, List.count_cons]

theorem disconnect_idempotent_witness :
    disconnect_ble sampleState =
      { sampleState with
          current_client := none,
          trace := sampleState.trace ++
            [Act.clientDisconnect (Client.mk "AA:BB" true).address,
             Act.send (OutEvent.status "Disconnected")] } ∧
    disconnect_ble (disconnect_ble sampleState) = disconnect_ble sampleState ∧
    (disconnect_ble (disconnect_ble sampleState)).current_client = none ∧
    (disconnect_ble (disconnect_ble sampleState)).trace.count
        (Act.send (OutEvent.status "Disconnected")) =
      sampleState.trace.count (Act.send (OutEvent.status "Disconnected")) + 1 :=
  disconnect_idempotent sampleState (Client.mk "AA:BB" true) rfl rfl

/-- C5: for a payload that decodes to `hr` with a client reference present,
the handler performs, in this order: the `current_hr` cache update, the
log line, the persistence attempt, and only then the broadcast of the
`heart_rate` event — and when persistence fails the failure is logged, the
measurement is not stored (and not retried), and the broadcast still
happens. -/
theorem notify_order (data : List Byte) (hr now : Nat) (storageOk : Bool)
    (s : AppState) (c : Client)
    (hdec : decodeHR data = some hr) (hc : s.current_client = some c) :
    notifyStep data now storageOk s =
      { s with
          current_hr := hr,
          db := if storageOk then s.db ++ [⟨now, hr, c.address⟩] else s.db,
          trace := s.trace ++
            ([Act.cacheUpdate hr, Act.logHeartRate hr] ++
             (if storageOk then [Act.dbAttempt hr c.address true]
              else [Act.dbAttempt hr c.address false,
                    Act.logError "Database error"]) ++
             [Act.send (OutEvent.heart_rate hr)]) } := by
  cases storageOk with
  | true =>
    simp [notifyStep, heart_rate_notification_handler, hdec, hc, save_heart_rate]
  | false =>
    simp [notifyStep, heart_rate_notification_handler, hdec, hc, save_heart_rate]

theorem notify_order_witness :
    notifyStep [(0 : Byte), (72 : Byte)] 7 false sampleState =
      { sampleState with
          current_hr := (72 : Byte).val,
          db := if False then
              sampleState.db ++ [⟨7, (72 : Byte).val, (Client.mk "AA:BB" true).address⟩]
            else sampleState.db,
          trace := sampleState.trace ++
            ([Act.cacheUpdate (72 : Byte).val, Act.logHeartRate (72 : Byte).val] ++
             (if False then
                [Act.dbAttempt (72 : Byte).val (Client.mk "AA:BB" true).address true]
              else [Act.dbAttempt (72 : Byte).val (Client.mk "AA:BB" true).address false,
                    Act.logError "Database error"]) ++
             [Act.send (OutEvent.heart_rate (72 : Byte).val)]) } := by
  have h := notify_order [(0 : Byte), (72 : Byte)] (72 : Byte).val 7 false
    sampleState (Client.mk "AA:BB" true) (by decide) rfl
  simpa using h

/-- C1: starting from a state with no active client, a successful
`connect_ble x` followed by a successful `connect_ble y` leaves exactly one
active session and it is bound to `y`; the trace shows the first session's
BLE teardown (`clientDisconnect x`) happening before the "Connecting to y"
broadcast and before the second connection attempt (`clientConnect y`). -/
theorem connect_single_session (x y : String) (s : AppState)
    (h : s.current_client = none) :
    (connect_ble y true (connect_ble x true s)).current_client =
      some { address := y, is_connected := true } ∧
    (connect_ble y true (connect_ble x true s)).trace = s.trace ++
      [Act.send (OutEvent.status ("Connecting to " ++ x ++ "...")),
       Act.clientConnect x,
       Act.send (OutEvent.status ("Connected to " ++ x)),
       Act.clientDisconnect x,
       Act.send (OutEvent.status ("Connecting to " ++ y ++ "...")),
       Act.clientConnect y,
       Act.send (OutEvent.status ("Connected to " ++ y))] := by
  constructor
  · simp [connect_ble, h]
  · simp [connect_ble, h]

theorem connect_single_session_witness :
    (connect_ble "Y" true (connect_ble "X" true
        (AppState.mk none 0 [] []))).current_client =
      some { address := "Y", is_connected := true } ∧
    (connect_ble "Y" true (connect_ble "X" true
        (AppState.mk none 0 [] []))).trace = (AppState.mk none 0 [] []).trace ++
      [Act.send (OutEvent.status ("Connecting to " ++ "X" ++ "...")),
       Act.clientConnect "X",
       Act.send (OutEvent.status ("Connected to " ++ "X")),
       Act.clientDisconnect "X",
       Act.send (OutEvent.status ("Connecting to " ++ "Y" ++ "...")),
       Act.clientConnect "Y",
       Act.send (OutEvent.status ("Connected to " ++ "Y"))] :=
  connect_single_session "X" "Y" (AppState.mk none 0 [] []) rfl

theorem decodeHR_le (data : List Byte) (hr : Nat) (h : decodeHR data = some hr) :
    hr ≤ 65535 := by
  match data with
  | [] => simp [decodeHR] at h
  | f :: rest =>
    by_cases hf : f.val % 2 = 0
    · match rest with
      | [] => simp [decodeHR, hf] at h
      | b :: tail =>
        simp [decodeHR, hf] at h
        have := b.isLt
        omega
    · match rest with
      | [] => simp [decodeHR, hf] at h
      | [b] => simp [decodeHR, hf] at h
      | b0 :: b1 :: tail =>
        simp [decodeHR, hf] at h
        have h0 := b0.isLt
        have h1 := b1.isLt
        omega

/-- C9 counterexample: the 16-bit little-endian payload `[0x01, 0x00, 0x01]`
is accepted by the decoder with value 256, and the notification path
persists a Measurement with value 256, which is not in 0–255. -/
theorem measurement_range_counterexample :
    decodeHR [(1 : Byte), (0 : Byte), (1 : Byte)] = some 256 ∧
    (notifyStep [(1 : Byte), (0 : Byte), (1 : Byte)] 7 true sampleState).db.map
      Measurement.value = [256] ∧
    ¬ (256 ≤ 255) := by decide

/-- C9 amended: every Measurement created by the notification path has a
value between 0 and 65535 inclusive — the decoder bounds 8-bit payloads by
255 and 16-bit little-endian payloads by 65535, and the handler persists
the decoded value unchanged. -/
theorem measurement_value_bound (data : List Byte) (now : Nat) (storageOk : Bool)
    (s : AppState) (m : Measurement)
    (hm : m ∈ (notifyStep data now storageOk s).db) :
    m ∈ s.db ∨ m.value ≤ 65535 := by
  rcases hdec : decodeHR data with _ | hr
  · left
    simpa [notifyStep, heart_rate_notification_handler, hdec] using hm
  · have hle := decodeHR_le data hr hdec
    rcases hc : s.current_client with _ | c
    · left
      simpa [notifyStep, heart_rate_notification_handler, hdec, hc] using hm
    · cases storageOk with
      | false =>
        left
        simpa [notifyStep, heart_rate_notification_handler, hdec, hc,
          save_heart_rate] using hm
      | true =>
        have hdb : (notifyStep data now true s).db =
            s.db ++ [⟨now, hr, c.address⟩] := by
          simp [notifyStep, heart_rate_notification_handler, hdec, hc,
            save_heart_rate]
        rw [hdb] at hm
        rcases List.mem_append.mp hm with hold | hnew
        · exact Or.inl hold
        · right
          have hm' : m = Measurement.mk now hr c.address := by simpa using hnew
          rw [hm']
          exact hle

theorem measurement_value_bound_witness :
    Measurement.mk 7 256 "AA:BB" ∈ sampleState.db ∨
      (Measurement.mk 7 256 "AA:BB").value ≤ 65535 :=
  measurement_value_bound [(1 : Byte), (0 : Byte), (1 : Byte)] 7 true
    sampleState (Measurement.mk 7 256 "AA:BB") (by decide)

/-- C7 counterexample: with one persisted measurement, querying with a
negative limit returns that measurement rather than the empty sequence —
SQLite treats a negative `LIMIT` bound as "no limit". -/
theorem history_negative_limit_counterexample :
    get_history "minute" (-1) [⟨0, 60, "A"⟩] = [(0, 60)] ∧
    get_history "minute" (-1) [⟨0, 60, "A"⟩] ≠ [] := by decide

theorem aggRows_limit_zero (trunc : Nat → Nat) (db : List Measurement) :
    aggRows trunc 0 db = [] := by
  simp [aggRows, sqlLimit]

theorem rawRows_limit_zero (db : List Measurement) :
    rawRows 0 db = [] := by
  simp [rawRows, sqlLimit]

theorem aggRows_limit_neg (trunc : Nat → Nat) (limit : Int)
    (db : List Measurement) (h : limit < 0) :
    aggRows trunc limit db = aggRows trunc ((db.length : Int)) db := by
  unfold aggRows
  have hlen : (sortDescBy id ((db.map (fun m => trunc m.timestamp)).dedup)).length
      ≤ db.length := by
    rw [length_sortDescBy]
    calc ((db.map (fun m => trunc m.timestamp)).dedup).length
        ≤ (db.map (fun m => trunc m.timestamp)).length :=
          (List.dedup_sublist _).length_le
      _ = db.length := List.length_map _ _
  have hnn : ¬ ((db.length : Int) < 0) := by
    simp
  rw [show sqlLimit limit (sortDescBy id ((db.map (fun m => trunc m.timestamp)).dedup))
        = sortDescBy id ((db.map (fun m => trunc m.timestamp)).dedup) by
      simp [sqlLimit, h],
    show sqlLimit ((db.length : Int))
          (sortDescBy id ((db.map (fun m => trunc m.timestamp)).dedup))
        = sortDescBy id ((db.map (fun m => trunc m.timestamp)).dedup) by
      simp only [sqlLimit, if_neg hnn, Int.toNat_ofNat]
      exact List.take_of_length_le hlen]

theorem rawRows_limit_neg (limit : Int) (db : List Measurement)
    (h : limit < 0) :
    rawRows limit db = rawRows ((db.length : Int)) db := by
  unfold rawRows
  have hlen : (sortDescBy Measurement.timestamp db).length ≤ db.length := by
    rw [length_sortDescBy]
  have hnn : ¬ ((db.length : Int) < 0) := by
    simp
  rw [show sqlLimit limit (sortDescBy Measurement.timestamp db)
        = sortDescBy Measurement.timestamp db by simp [sqlLimit, h],
    show sqlLimit ((db.length : Int)) (sortDescBy Measurement.timestamp db)
        = sortDescBy Measurement.timestamp db by
      simp only [sqlLimit, if_neg hnn, Int.toNat_ofNat]
      exact List.take_of_length_le hlen]

/-- C7 amended: for every period, `limit = 0` yields the empty sequence and
no error is raised; a negative limit, however, is passed to SQLite's
`LIMIT`, which treats it as "no limit", so the query returns the full
result set (the same as querying with the row count as limit) rather than
the empty sequence. -/
theorem history_limit_nonpositive (period : String) (db : List Measurement)
    (limit : Int) :
    (limit = 0 → get_history period limit db = []) ∧
    (limit < 0 → get_history period limit db =
      get_history period ((db.length : Int)) db) := by
  constructor
  · intro h0
    subst h0
    unfold get_history
    split
    · exact aggRows_limit_zero _ _
    · split
      · exact aggRows_limit_zero _ _
      · split
        · exact aggRows_limit_zero _ _
        · exact rawRows_limit_zero _
  · intro hneg
    unfold get_history
    split
    · exact aggRows_limit_neg _ _ _ hneg
    · split
      · exact aggRows_limit_neg _ _ _ hneg
      · split
        · exact aggRows_limit_neg _ _ _ hneg
        · exact rawRows_limit_neg _ _ hneg

theorem history_limit_nonpositive_witness :
    get_history "minute" 0 [⟨0, 60, "A"⟩] = [] ∧
    get_history "minute" (-1) [⟨0, 60, "A"⟩] =
      get_history "minute" ((([Measurement.mk 0 60 "A"]).length : Int))
        [⟨0, 60, "A"⟩] :=
  ⟨(history_limit_nonpositive "minute" [⟨0, 60, "A"⟩] 0).1 rfl,
   (history_limit_nonpositive "minute" [⟨0, 60, "A"⟩] (-1)).2 (by decide)⟩

theorem aggRows_spec (trunc : Nat → Nat) (limit : Int) (db : List Measurement)
    (hl : 0 < limit) :
    List.Pairwise (· < ·) ((aggRows trunc limit db).map Prod.fst) ∧
    (aggRows trunc limit db).length =
      min limit.toNat ((db.map (fun m => trunc m.timestamp)).dedup).length ∧
    (∀ p ∈ aggRows trunc limit db,
      (∃ m ∈ db, trunc m.timestamp = p.1) ∧
      p.2 = roundHalfEven (bucketValues trunc p.1 db).sum
              (bucketValues trunc p.1 db).length) ∧
    (∀ p ∈ aggRows trunc limit db, ∀ m ∈ db,
      trunc m.timestamp ∉ (aggRows trunc limit db).map Prod.fst →
      trunc m.timestamp ≤ p.1) := by
  have hneg : ¬ (limit < 0) := by omega
  set B := (db.map (fun m => trunc m.timestamp)).dedup with hB
  set buckets := sortDescBy id B with hbuckets
  have hkept : sqlLimit limit buckets = buckets.take limit.toNat := by
    simp [sqlLimit, hneg]
  have hfst : (aggRows trunc limit db).map Prod.fst =
      (buckets.take limit.toNat).reverse := by
    have hcomp : (Prod.fst ∘ fun b : Nat =>
        (b, roundHalfEven (bucketValues trunc b db).sum
          (bucketValues trunc b db).length)) = fun b => b := rfl
    simp [aggRows, hkept, List.map_map, hcomp, ← hB, ← hbuckets]
  have hsorted : buckets.Pairwise (fun a b => b ≤ a) := by
    simpa using sorted_sortDescBy id B
  have hnodup : buckets.Nodup :=
    ((perm_sortDescBy id B).nodup_iff).mpr (List.nodup_dedup _)
  have hstrict : buckets.Pairwise (fun a b => b < a) :=
    (hsorted.and hnodup).imp (fun h => lt_of_le_of_ne h.1 (Ne.symm h.2))
  refine ⟨?_, ?_, ?_, ?_⟩
  · rw [hfst]
    exact List.pairwise_reverse.mpr
      (List.Pairwise.sublist (List.take_sublist _ _) hstrict)
  · simp only [aggRows, hkept, List.length_map, List.length_reverse,
      List.length_take, ← hB, ← hbuckets]
    rw [hbuckets, length_sortDescBy]
  · intro p hp
    simp only [aggRows, hkept, List.mem_map, List.mem_reverse, ← hB,
      ← hbuckets] at hp
    obtain ⟨b, hb, hpb⟩ := hp
    have hbB : b ∈ B := mem_sortDescBy.mp (List.mem_of_mem_take hb)
    have hbmap : b ∈ db.map (fun m => trunc m.timestamp) := List.mem_dedup.mp hbB
    obtain ⟨m, hm, hmb⟩ := List.mem_map.mp hbmap
    subst hpb
    exact ⟨⟨m, hm, hmb⟩, rfl⟩
  · intro p hp m hm hnot
    have hp1 : p.1 ∈ buckets.take limit.toNat := by
      have : p.1 ∈ (aggRows trunc limit db).map Prod.fst :=
        List.mem_map_of_mem Prod.fst hp
      rw [hfst] at this
      exact List.mem_reverse.mp this
    have htm : trunc m.timestamp ∈ buckets := by
      rw [hbuckets, mem_sortDescBy, hB]
      exact List.mem_dedup.mpr (List.mem_map_of_mem _ hm)
    have htm' : trunc m.timestamp ∈ buckets.drop limit.toNat := by
      rw [← List.take_append_drop limit.toNat buckets, List.mem_append] at htm
      rcases htm with h | h
      · exfalso
        apply hnot
        rw [hfst, List.mem_reverse]
        exact h
      · exact h
    have hpw := hsorted
    rw [← List.take_append_drop limit.toNat buckets] at hpw
    exact (List.pairwise_append.mp hpw).2.2 p.1 hp1 (trunc m.timestamp) htm'

/-- The measurements of the aggregation example: values 60, 70, 80 recorded
within the same minute bucket. -/
def aggExample : List Measurement := [⟨5, 60, "A"⟩, ⟨10, 70, "A"⟩, ⟨20, 80, "A"⟩]

/-- C4: for each period in {minute, hour, day} and every positive limit,
`get_history` groups the persisted measurements by the corresponding
timestamp truncation, pairs each kept bucket with the arithmetic mean of
its values rounded to the nearest integer (ties to even, as Python's
`round`), keeps the `limit` most recent buckets (the result is exactly the
most recent buckets, and no dropped bucket is more recent than a kept one)
and returns them in ascending chronological order; in particular values
60, 70, 80 within one minute bucket queried with period "minute" and
limit 1 give a single bucket with value 70. -/
theorem history_aggregate (period : String) (trunc : Nat → Nat) (limit : Int)
    (db : List Measurement)
    (hp : (period = "minute" ∧ trunc = truncMinute) ∨
          (period = "hour" ∧ trunc = truncHour) ∨
          (period = "day" ∧ trunc = truncDay))
    (hl : 0 < limit) :
    List.Pairwise (· < ·) ((get_history period limit db).map Prod.fst) ∧
    (get_history period limit db).length =
      min limit.toNat ((db.map (fun m => trunc m.timestamp)).dedup).length ∧
    (∀ p ∈ get_history period limit db,
      (∃ m ∈ db, trunc m.timestamp = p.1) ∧
      p.2 = roundHalfEven (bucketValues trunc p.1 db).sum
              (bucketValues trunc p.1 db).length) ∧
    (∀ p ∈ get_history period limit db, ∀ m ∈ db,
      trunc m.timestamp ∉ (get_history period limit db).map Prod.fst →
      trunc m.timestamp ≤ p.1) ∧
    get_history "minute" 1 aggExample = [(0, 70)] := by
  have heq : get_history period limit db = aggRows trunc limit db := by
    rcases hp with ⟨h1, h2⟩ | ⟨h1, h2⟩ | ⟨h1, h2⟩ <;> subst h1 <;> subst h2 <;> rfl
  rw [heq]
  obtain ⟨a, b, c, d⟩ := aggRows_spec trunc limit db hl
  exact ⟨a, b, c, d, by decide⟩

theorem history_aggregate_witness :
    List.Pairwise (· < ·) ((get_history "minute" 1 aggExample).map Prod.fst) ∧
    (get_history "minute" 1 aggExample).length =
      min (1 : Int).toNat
        ((aggExample.map (fun m => truncMinute m.timestamp)).dedup).length ∧
    (∀ p ∈ get_history "minute" 1 aggExample,
      (∃ m ∈ aggExample, truncMinute m.timestamp = p.1) ∧
      p.2 = roundHalfEven (bucketValues truncMinute p.1 aggExample).sum
              (bucketValues truncMinute p.1 aggExample).length) ∧
    (∀ p ∈ get_history "minute" 1 aggExample, ∀ m ∈ aggExample,
      truncMinute m.timestamp ∉ (get_history "minute" 1 aggExample).map Prod.fst →
      truncMinute m.timestamp ≤ p.1) ∧
    get_history "minute" 1 aggExample = [(0, 70)] :=
  history_aggregate "minute" truncMinute 1 aggExample
    (Or.inl ⟨rfl, rfl⟩) (by decide)

theorem rawRows_spec (limit : Int) (db : List Measurement) :
    List.Pairwise (· ≤ ·) ((rawRows limit db).map Prod.fst) ∧
    (0 ≤ limit → (rawRows limit db).length = min limit.toNat db.length) ∧
    (∀ p ∈ rawRows limit db, ∃ m ∈ db, m.timestamp = p.1 ∧ m.value = p.2) ∧
    (∀ p ∈ rawRows limit db, ∀ m ∈ db,
      m.timestamp ≤ p.1 ∨ m.timestamp ∈ (rawRows limit db).map Prod.fst) := by
  set sorted := sortDescBy Measurement.timestamp db with hsorted_def
  set N := if limit < 0 then sorted.length else limit.toNat with hN
  have hkept : sqlLimit limit sorted = sorted.take N := sqlLimit_eq_take limit sorted
  have hpw : sorted.Pairwise (fun a b => b.timestamp ≤ a.timestamp) := by
    rw [hsorted_def]
    exact sorted_sortDescBy Measurement.timestamp db
  have hcomp : (Prod.fst ∘ fun m : Measurement => (m.timestamp, m.value)) =
      Measurement.timestamp := rfl
  have hfst : (rawRows limit db).map Prod.fst =
      ((sorted.take N).reverse).map Measurement.timestamp := by
    simp [rawRows, hkept, List.map_map, hcomp, ← hsorted_def]
  refine ⟨?_, ?_, ?_, ?_⟩
  · rw [hfst]
    refine List.pairwise_map.mpr ?_
    exact List.pairwise_reverse.mpr
      (List.Pairwise.sublist (List.take_sublist _ _) hpw)
  · intro h0
    have hNe : N = limit.toNat := by
      rw [hN, if_neg (not_lt.mpr h0)]
    simp only [rawRows, hkept, List.length_map, List.length_reverse,
      List.length_take]
    rw [hNe, hsorted_def, length_sortDescBy]
  · intro p hp
    simp only [rawRows, hkept, List.mem_map, List.mem_reverse] at hp
    obtain ⟨m, hm, hpm⟩ := hp
    refine ⟨m, ?_, ?_⟩
    · have : m ∈ sorted := List.mem_of_mem_take hm
      rw [hsorted_def, mem_sortDescBy] at this
      exact this
    · rw [← hpm]
      exact ⟨rfl, rfl⟩
  · intro p hp m hm
    have hmem : m ∈ sorted := by
      rw [hsorted_def, mem_sortDescBy]
      exact hm
    rw [← List.take_append_drop N sorted, List.mem_append] at hmem
    rcases hmem with htake | hdrop
    · right
      rw [hfst, List.mem_map]
      exact ⟨m, List.mem_reverse.mpr htake, rfl⟩
    · left
      simp only [rawRows, hkept, List.mem_map, List.mem_reverse] at hp
      obtain ⟨x, hx, hpx⟩ := hp
      have hple : m.timestamp ≤ x.timestamp := by
        have hpw2 := hpw
        rw [← List.take_append_drop N sorted] at hpw2
        exact (List.pairwise_append.mp hpw2).2.2 x hx m hdrop
      rw [← hpx]
      exact hple

/-- C10: a period string other than "minute", "hour" or "day" — not just
"raw" but any unknown or misspelled value — falls through to the raw
branch instead of being rejected: the result is identical to the "raw"
query, the rows are individual persisted measurements, in ascending
chronological order, the `limit` (when non-negative) most recent of them —
any measurement more recent than a returned row appears in the result. -/
theorem history_unknown_period (period : String) (limit : Int)
    (db : List Measurement)
    (h1 : period ≠ "minute") (h2 : period ≠ "hour") (h3 : period ≠ "day") :
    get_history period limit db = get_history "raw" limit db ∧
    List.Pairwise (· ≤ ·) ((get_history period limit db).map Prod.fst) ∧
    (0 ≤ limit →
      (get_history period limit db).length = min limit.toNat db.length) ∧
    (∀ p ∈ get_history period limit db,
      ∃ m ∈ db, m.timestamp = p.1 ∧ m.value = p.2) ∧
    (∀ p ∈ get_history period limit db, ∀ m ∈ db,
      m.timestamp ≤ p.1 ∨
        m.timestamp ∈ (get_history period limit db).map Prod.fst) := by
  have heq : get_history period limit db = rawRows limit db := by
    simp [get_history, h1, h2, h3]
  have heq' : get_history "raw" limit db = rawRows limit db := rfl
  rw [heq, heq']
  obtain ⟨a, b, c, d⟩ := rawRows_spec limit db
  exact ⟨rfl, a, b, c, d⟩

theorem history_unknown_period_witness :
    get_history "weird" 2 aggExample = get_history "raw" 2 aggExample ∧
    List.Pairwise (· ≤ ·) ((get_history "weird" 2 aggExample).map Prod.fst) ∧
    (0 ≤ (2 : Int) →
      (get_history "weird" 2 aggExample).length =
        min (2 : Int).toNat aggExample.length) ∧
    (∀ p ∈ get_history "weird" 2 aggExample,
      ∃ m ∈ aggExample, m.timestamp = p.1 ∧ m.value = p.2) ∧
    (∀ p ∈ get_history "weird" 2 aggExample, ∀ m ∈ aggExample,
      m.timestamp ≤ p.1 ∨
        m.timestamp ∈ (get_history "weird" 2 aggExample).map Prod.fst) :=
  history_unknown_period "weird" 2 aggExample
    (by decide) (by decide) (by decide)
